import Mathlib

/-!
Verification development for the PartsTracker repository.

The repository has two storage variants of the same parts-assignment ledger:

* a local variant (`public/app.js`) keeping a `Job → Part → Location` aggregate
  in memory / localStorage, and
* a remote variant (`public/js/supabase-client.js` + `public/js/import.js`)
  keeping `parts` and `part_locations` rows in a relational store.

Both are shallowly embedded below.  JavaScript objects are modelled as
association lists (`List (κ × α)`, first match wins, assignment updates the
existing key in place or appends a new key at the end, exactly like JS
property update), JS numbers as `ℚ`, `Number(·)` / `parseInt(·)` as explicit
option-valued parsers where `none` models `NaN`.
-/

namespace PartsTracker

/-! ## Association-list model of JavaScript objects -/

/-- `obj[k]` — first binding of key `k`, `none` when the key is absent. -/
def lookupA [DecidableEq κ] (k : κ) : List (κ × α) → Option α
  | [] => none
  | (k', v) :: rest => if k' = k then some v else lookupA k rest

/-- `obj[k] = v` — update the existing binding in place, else append. -/
def setA [DecidableEq κ] (k : κ) (v : α) : List (κ × α) → List (κ × α)
  | [] => [(k, v)]
  | (k', v') :: rest => if k' = k then (k, v) :: rest else (k', v') :: setA k v rest

/-- Lookup with a default value (`obj[k] || d` for non-falsy stored values). -/
def getD [DecidableEq κ] (k : κ) (l : List (κ × α)) (d : α) : α :=
  (lookupA k l).getD d

/-! ## JavaScript string and number semantics -/

/-- Whether `needle` occurs at the head of `hay`. -/
def leadMatch : List Char → List Char → Bool
  | [], _ => true
  | _ :: _, [] => false
  | a :: as, b :: bs => a == b && leadMatch as bs

/-- Whether `needle` occurs anywhere in `hay`. -/
def subSearch (needle : List Char) : List Char → Bool
  | [] => leadMatch needle []
  | c :: rest => leadMatch needle (c :: rest) || subSearch needle rest

/-- JS `h.includes(c)`. -/
def strIncludes (h c : String) : Bool := subSearch c.data h.data

/-- The whitespace characters relevant to JS `trim`. -/
def isWsChar (c : Char) : Bool :=
  c = ' ' || c = '\t' || c = '\n' || c = '\r'

/-- JS `s.trim()` (character-list implementation). -/
def jsTrim (s : String) : String :=
  String.mk (((s.data.dropWhile isWsChar).reverse.dropWhile isWsChar).reverse)

/-- JS `s.toLowerCase()` on ASCII text (character-list implementation). -/
def jsToLower (s : String) : String :=
  String.mk (s.data.map Char.toLower)

/-- Digit run to a natural number. -/
def natOfDigits (cs : List Char) : Nat :=
  cs.foldl (fun n c => n * 10 + (c.toNat - 48)) 0

/-- Unsigned decimal literal (optional single decimal point) to a rational. -/
def parseUnsignedQ (s : String) : Option ℚ :=
  let cs := s.data
  let intPart := cs.takeWhile (fun c => c != '.')
  match cs.dropWhile (fun c => c != '.') with
  | [] =>
    if intPart ≠ [] ∧ intPart.all Char.isDigit then some (natOfDigits intPart) else none
  | _ :: frac =>
    if (intPart ++ frac) ≠ [] ∧ intPart.all Char.isDigit ∧ frac.all Char.isDigit then
      some ((natOfDigits intPart : ℚ) + (natOfDigits frac : ℚ) / (10 : ℚ) ^ frac.length)
    else none

/-- JS `Number(s)` restricted to plain decimal literals; `none` models `NaN`.
The empty / all-whitespace string converts to `0`, as in JS. -/
def jsStrToNumber (s : String) : Option ℚ :=
  let t := jsTrim s
  if t = "" then some 0
  else
    match t.data with
    | '-' :: rest => (parseUnsignedQ (String.mk rest)).map (fun q => -q)
    | '+' :: rest => parseUnsignedQ (String.mk rest)
    | _ => parseUnsignedQ t

/-- JS `parseInt(s)`: optional sign then the maximal leading digit run;
`none` models `NaN`. -/
def jsParseInt (s : String) : Option ℚ :=
  let t := jsTrim s
  let core : List Char → Option ℚ := fun cs =>
    let ds := cs.takeWhile Char.isDigit
    if ds = [] then none else some (natOfDigits ds)
  match t.data with
  | '-' :: rest => (core rest).map (fun q => -q)
  | '+' :: rest => core rest
  | cs => core cs

/-- A JS value flowing into `upsertPart`'s `qty` argument: either the raw CSV
cell (a string) or the numeric literal `1` default. -/
inductive JVal where
  | str (s : String)
  | num (q : ℚ)
deriving DecidableEq

/-- JS `Number(v)` on such a value. -/
def jsToNumber : JVal → Option ℚ
  | .str s => jsStrToNumber s
  | .num q => some q

/-- JS `a || b` on strings (empty string is falsy). -/
def jsOrS (a b : String) : String := if a = "" then b else a

/-- JS `Math.round q` = `⌊q + 1/2⌋`. -/
def jsRound (q : ℚ) : ℤ := ⌊q + 1 / 2⌋

/-- `normalizeCode` (`js/utils.js`): lower-case and strip everything but
ASCII letters and digits. -/
def normalizeCode (s : String) : String :=
  String.mk ((jsToLower s).data.filter Char.isAlphanum)

/-! ## Header Classifier (`matchHeaders`, `public/app.js` lines 237-261) -/

/-- The result of `matchHeaders`; `none` models the `-1` "no column" value. -/
structure HeaderMatch where
  part : Option Nat
  location : Option Nat
  location2 : Option Nat
  quantity : Option Nat
  description : Option Nat
deriving DecidableEq

/-- One header matches one candidate: `h === c || h.includes(c)`. -/
def headerHit (h c : String) : Bool := h == c || strIncludes h c

/-- `find(...cands)`: first candidate, in priority order, that some header
equals or contains; earliest column index wins for each candidate. -/
def findCand (lower : List String) : List String → Option Nat
  | [] => none
  | c :: rest =>
    match lower.findIdx? (fun h => headerHit h c) with
    | some i => some i
    | none => findCand lower rest

/-- The secondary-location search: first candidate having a matching header at
an index different from the primary location index. -/
def findCandNe (lower : List String) (avoid : Nat) : List String → Option Nat
  | [] => none
  | c :: rest =>
    match (List.range lower.length).find?
        (fun i => headerHit (List.getD lower i "") c && i ≠ avoid) with
    | some i => some i
    | none => findCandNe lower avoid rest

/-- `matchHeaders(headers)` from `public/app.js`. -/
def matchHeaders (headers : List String) : HeaderMatch :=
  let lower := headers.map (fun h => jsTrim (jsToLower h))
  let locPrimary := findCand lower ["location", "loc", "panel", "cabinet"]
  let locSecondary :=
    match locPrimary with
    | none => none
    | some p => findCandNe lower p ["cabinet", "panel", "room", "area", "section", "bay"]
  { part := findCand lower
      ["part number", "part", "catalog", "cat", "mfg catalog", "manufacturer catalog",
       "catalog number", "cat no", "cat#", "component_tag", "component tag", "item"]
    location := locPrimary
    location2 := locSecondary
    quantity := findCand lower ["qty", "quantity", "count", "total", "sum"]
    description := findCand lower
      ["description", "desc", "details", "component description",
       "component_description", "name", "title"] }

/-! ## Local-variant data model (`public/app.js`) -/

/-- A Part: description plus the `location → requiredQty` and
`location → assignedQty` objects. -/
structure Part where
  description : String
  locations : List (String × ℚ)
  assigned : List (String × ℚ)
deriving DecidableEq

/-- A Job of the local variant (`pendingRaw` is irrelevant to the claims about
quantities and is carried as the raw headers/rows payload). -/
structure Job where
  id : String
  filename : String
  pendingRaw : Option (List String × List (List String))
  parts : List (String × Part)
deriving DecidableEq

/-- The application state slice that the ledger operations touch. -/
structure AppState where
  jobs : List (String × Job)
  selectedJobId : Option String
deriving DecidableEq

/-- `ensureJob` (`app.js`): lookup-or-create. -/
def ensureJobState (s : AppState) (jobId filename : String) : AppState :=
  match lookupA jobId s.jobs with
  | some _ => s
  | none =>
    let fresh : Job := { id := jobId, filename := filename, pendingRaw := none, parts := [] }
    { s with jobs := setA jobId fresh s.jobs }

/-- `if (!parts[pn]) parts[pn] = {…}` — the part looked up or freshly
created (`app.js` 103-104). -/
def basePart (job : Job) (pn : String) : Part :=
  match lookupA pn job.parts with
  | some p => p
  | none => { description := "", locations := [], assigned := [] }

/-- `if (description && !part.description) part.description = …`
(`app.js` 105). -/
def descTweak (p : Part) (description : String) : Part :=
  if description ≠ "" ∧ p.description = "" then { p with description := jsTrim description }
  else p

/-- `if (part.assigned[loc] == null) part.assigned[loc] = 0` (`app.js` 107). -/
def asgInit (p : Part) (loc : String) : Part :=
  match lookupA loc p.assigned with
  | some _ => p
  | none => { p with assigned := setA loc 0 p.assigned }

/-- `upsertPart(job, partNumber, location, qty, description)` (`app.js` 96-108). -/
def upsertPart (job : Job) (partNumber location : String) (qty : JVal)
    (description : String) : Job :=
  let pn := jsTrim partNumber
  let loc := jsOrS (jsTrim location) "UNSPECIFIED"
  let q : ℚ := (jsToNumber qty).getD 0
  if pn = "" ∨ q ≤ 0 then job
  else
    let part := descTweak (basePart job pn) description
    let part :=
      { part with locations := setA loc (getD loc part.locations 0 + q) part.locations }
    let part := asgInit part loc
    { job with parts := setA pn part job.parts }

/-- Run a mutation on the job stored under `jobId`, no-op when absent. -/
def modifyJob (s : AppState) (jobId : String) (f : Job → Job) : AppState :=
  match lookupA jobId s.jobs with
  | none => s
  | some job => { s with jobs := setA jobId (f job) s.jobs }

/-- `adjustAssignment(jobId, partNumber, loc, delta)` (`app.js` 524-532). -/
def adjustAssignment (s : AppState) (jobId partNumber loc : String) (delta : ℚ) :
    AppState :=
  match lookupA jobId s.jobs with
  | none => s
  | some job =>
    match lookupA partNumber job.parts with
    | none => s
    | some part =>
      let req := getD loc part.locations 0
      let cur := getD loc part.assigned 0
      let next := max 0 (min req (cur + delta))
      let part' : Part := { part with assigned := setA loc next part.assigned }
      let job' : Job := { job with parts := setA partNumber part' job.parts }
      { s with jobs := setA jobId job' s.jobs }

/-- `setAssignment(jobId, partNumber, loc, value)` (`app.js` 534-541). -/
def setAssignment (s : AppState) (jobId partNumber loc : String) (value : ℚ) :
    AppState :=
  match lookupA jobId s.jobs with
  | none => s
  | some job =>
    match lookupA partNumber job.parts with
    | none => s
    | some part =>
      let req := getD loc part.locations 0
      let next := max 0 (min req value)
      let part' : Part := { part with assigned := setA loc next part.assigned }
      let job' : Job := { job with parts := setA partNumber part' job.parts }
      { s with jobs := setA jobId job' s.jobs }

/-- `markFullyAssigned(jobId, partNumber)` (`app.js` 543-550). -/
def markFullyAssigned (s : AppState) (jobId partNumber : String) : AppState :=
  match lookupA jobId s.jobs with
  | none => s
  | some job =>
    match lookupA partNumber job.parts with
    | none => s
    | some part =>
      let part' : Part :=
        { part with assigned :=
            part.locations.foldl (fun asg lr => setA lr.1 lr.2 asg) part.assigned }
      let job' : Job := { job with parts := setA partNumber part' job.parts }
      { s with jobs := setA jobId job' s.jobs }

/-- The per-location "Mark Fully Assigned" button (`app.js` 507-516):
guarded write of `assigned[onlyLoc] = locations[onlyLoc]`. -/
def fillOneLocation (s : AppState) (jobId partNumber onlyLoc : String) : AppState :=
  match lookupA jobId s.jobs with
  | none => s
  | some job =>
    match lookupA partNumber job.parts with
    | none => s
    | some part =>
      if getD onlyLoc part.locations 0 = 0 then s
      else
        let req := getD onlyLoc part.locations 0
        let part' : Part := { part with assigned := setA onlyLoc req part.assigned }
        let job' : Job := { job with parts := setA partNumber part' job.parts }
        { s with jobs := setA jobId job' s.jobs }

/-! ## Local-variant row processing (`openMapperForJob`, `app.js` 326-361) -/

/-- A confirmed column mapping of the local variant; `none` models `-1`. -/
structure LocalMapping where
  part : Option Nat
  location : Option Nat
  location2 : Option Nat
  quantity : Option Nat
  description : Option Nat
deriving DecidableEq

/-- `get(idx)`: the row cell at a mapped index, `''` when unmapped or out of
range. -/
def getCell (r : List String) : Option Nat → String
  | none => ""
  | some i => r.getD i ""

/-- `combineLoc(a, b)` (`app.js` 332-336). -/
def combineLoc (a b : String) : String :=
  let s1 := jsTrim a
  let s2 := jsTrim b
  if s1 ≠ "" ∧ s2 ≠ "" then s1 ++ " / " ++ s2 else jsOrS s1 (jsOrS s2 "UNSPECIFIED")

/-- The part number resolved for one row: mapped column, else the Header
Classifier's fallback guess. -/
def resolvedPart (m : LocalMapping) (headers : List String) (r : List String) :
    String :=
  jsOrS (getCell r m.part) (getCell r (matchHeaders headers).part)

/-- The quantity value resolved for one row: the raw cell when the quantity
column is mapped and the cell is non-blank, else the literal `1`. -/
def resolvedQty (m : LocalMapping) (r : List String) : JVal :=
  match m.quantity with
  | some i => if jsTrim (r.getD i "") ≠ "" then .str (r.getD i "") else .num 1
  | none => .num 1

/-- The body of the per-row loop of `openMapperForJob`: normalize one raw row
and feed it to `upsertPart`. -/
def processRow (job : Job) (m : LocalMapping) (headers : List String)
    (r : List String) : Job :=
  upsertPart job (resolvedPart m headers r)
    (combineLoc (getCell r m.location) (getCell r m.location2))
    (resolvedQty m r) (getCell r m.description)

/-- A normalized tuple (§4.2 output) for the merge-import claims. -/
structure Tup where
  pn : String
  loc : String
  qty : ℚ
  desc : String
deriving DecidableEq

/-- Merge-import a sequence of normalized tuples into a local Job: one
`upsertPart` call per tuple, in order. -/
def importTuples (job : Job) (ts : List Tup) : Job :=
  ts.foldl (fun j t => upsertPart j t.pn t.loc (.num t.qty) t.desc) job

/-- The required quantity stored at a `(part, location)` cell (0 if absent). -/
def requiredOf (job : Job) (pn loc : String) : ℚ :=
  match lookupA pn job.parts with
  | none => 0
  | some p => getD loc p.locations 0

/-- The assigned quantity stored at a `(part, location)` cell (0 if absent). -/
def assignedOf (job : Job) (pn loc : String) : ℚ :=
  match lookupA pn job.parts with
  | none => 0
  | some p => getD loc p.assigned 0

/-! ## Query/Stats engine (`computeJobStats`, `app.js` 110-124) -/

/-- The `(required, assigned)` pairs scanned by the nested
`for pn … for loc …` loops, in iteration order. -/
def cellsOf (job : Job) : List (ℚ × ℚ) :=
  job.parts.flatMap
    (fun pp => pp.2.locations.map (fun lr => (lr.2, getD lr.1 pp.2.assigned 0)))

/-- Output of `computeJobStats`. -/
structure JobStatsOut where
  required : ℚ
  assigned : ℚ
  lines : Nat
  pct : ℤ
deriving DecidableEq

/-- `computeJobStats(job)`: totals over all cells, with the defensive
`Math.min(asg, req)` clamp, and `pct = required ? Math.round(100*assigned/required) : 0`. -/
def computeJobStats (job : Job) : JobStatsOut :=
  let cells := cellsOf job
  let required := (cells.map Prod.fst).sum
  let assigned := (cells.map (fun c => min c.2 c.1)).sum
  { required := required
    assigned := assigned
    lines := cells.length
    pct := if required ≠ 0 then jsRound (100 * assigned / required) else 0 }

/-! ## Export report (`exportReportCsv`, `app.js` 552-566) -/

/-- One data row of the export report (its numeric fields, pre-CSV-encoding). -/
structure ReportRow where
  job : String
  pn : String
  loc : String
  req : ℚ
  asg : ℚ
  rem : ℚ
  desc : String
deriving DecidableEq

/-- The data rows produced by `exportReportCsv` for one job. -/
def exportReportRows (job : Job) : List ReportRow :=
  job.parts.flatMap (fun pp =>
    pp.2.locations.map (fun lr =>
      let req := lr.2
      let asg := min req (getD lr.1 pp.2.assigned 0)
      { job := job.id, pn := pp.1, loc := lr.1, req := req, asg := asg,
        rem := max 0 (req - asg), desc := pp.2.description }))

/-! ## Backup restore (`restoreAll`, `app.js` 577-595) -/

/-- The `state` member of a parsed backup payload. -/
structure RestoreStateData where
  jobs : Option (List (String × Job))
  selectedJobId : Option String

/-- A parsed backup payload (`data`); the fields the restore path reads. -/
structure BackupData where
  state : Option RestoreStateData

/-- `restoreAll` applied to an already-read payload.  `none` models a file
whose text failed `JSON.parse` or parsed to a falsy value. -/
def restoreAll (s : AppState) (payload : Option BackupData) : AppState :=
  match payload with
  | none => s
  | some d =>
    match d.state with
    | none => s
    | some st =>
      match st.jobs with
      | none => s
      | some jm =>
        let sel :=
          match st.selectedJobId with
          | some i => if i ≠ "" then some i else (jm.map Prod.fst).head?
          | none => (jm.map Prod.fst).head?
        { jobs := jm, selectedJobId := sel }

/-- The `data && data.state && data.state.jobs` chain as one accessor. -/
def payloadJobs (p : Option BackupData) : Option (List (String × Job)) :=
  p.bind (fun d => d.state.bind (fun st => st.jobs))

/-! ## Remote-variant model (`supabase-client.js`, `import.js`) -/

/-- A `part_locations` row (its mutable payload). -/
structure RCell where
  location : String
  qtyRequired : ℚ
  qtyAssigned : ℚ
deriving DecidableEq

/-- A `parts` row (its mutable payload). -/
structure RPart where
  partNumber : String
  description : String
deriving DecidableEq

/-- The remote store.  A `parts` row is keyed by its upsert conflict target
`(job_id, part_number_norm)`; a `part_locations` row by
`(job_id, part_number_norm, location_norm)`. -/
structure RemoteDB where
  parts : List ((String × String) × RPart)
  cells : List ((String × String × String) × RCell)
deriving DecidableEq

/-- The empty remote store. -/
def emptyDB : RemoteDB := { parts := [], cells := [] }

/-- `PartsAPI.upsert`: insert-or-overwrite on `(job_id, part_number_norm)`;
returns the row key. -/
def partsUpsert (db : RemoteDB) (jobId partNumber description : String) :
    RemoteDB × (String × String) :=
  let key := (jobId, normalizeCode partNumber)
  let row : RPart := { partNumber := partNumber, description := description }
  ({ db with parts := setA key row db.parts }, key)

/-- `LocationsAPI.upsert(partId, location, qtyRequired, replaceQty)`
(`supabase-client.js`): add to (or, under `replaceQty`, overwrite) the
existing `qty_required`, else insert a fresh row with `qty_assigned = 0`. -/
def locationsUpsert (db : RemoteDB) (partKey : String × String)
    (location : String) (qtyRequired : ℚ) (replaceQty : Bool) : RemoteDB :=
  let key := (partKey.1, partKey.2, normalizeCode location)
  match lookupA key db.cells with
  | some ex =>
    let newQty := if replaceQty then qtyRequired else ex.qtyRequired + qtyRequired
    { db with cells := setA key { ex with qtyRequired := newQty } db.cells }
  | none =>
    let row : RCell := { location := location, qtyRequired := qtyRequired, qtyAssigned := 0 }
    { db with cells := setA key row db.cells }

/-- `LocationsAPI.updateAssigned(locationId, delta)`: clamp the new assigned
quantity to `[0, qty_required]`; `none` models the thrown lookup error. -/
def updateAssigned (db : RemoteDB) (key : String × String × String) (delta : ℚ) :
    Option RemoteDB :=
  match lookupA key db.cells with
  | none => none
  | some cur =>
    let newAssigned := max 0 (min cur.qtyRequired (cur.qtyAssigned + delta))
    some { db with cells := setA key { cur with qtyAssigned := newAssigned } db.cells }

/-- `LocationsAPI.deleteByJob`. -/
def locationsDeleteByJob (db : RemoteDB) (jobId : String) : RemoteDB :=
  { db with cells := db.cells.filter (fun c => c.1.1 ≠ jobId) }

/-- `PartsAPI.deleteByJob`. -/
def partsDeleteByJob (db : RemoteDB) (jobId : String) : RemoteDB :=
  { db with parts := db.parts.filter (fun p => p.1.1 ≠ jobId) }

/-- The `select count` of `parts` rows of one job. -/
def countPartsForJob (db : RemoteDB) (jobId : String) : Nat :=
  (db.parts.filter (fun p => p.1.1 = jobId)).length

/-- Import strategy. -/
inductive Strategy where
  | merge
  | replace
deriving DecidableEq

/-- One normalized import item (`import.js` `executeImport` item mapping). -/
structure ImportItem where
  partNumber : String
  location : String
  quantity : ℚ
  description : String
deriving DecidableEq

/-- The result summary of `ImportsAPI.executeImport` (in this pure model no
collaborator call fails, so `errors` is always empty and omitted). -/
structure ImportResults where
  partsCreated : Nat
  partsUpdated : Nat
  locationsCreated : Nat
  locationsUpdated : Nat
  deleted : Nat
deriving DecidableEq

/-- The per-item body of `ImportsAPI.executeImport`: existence check, part
upsert, existence check, location upsert, counting. -/
def processItem (jobId : String) (strategy : Strategy) (replaceQtyOnMerge : Bool)
    (acc : RemoteDB × ImportResults) (item : ImportItem) :
    RemoteDB × ImportResults :=
  let db := acc.1
  let res := acc.2
  let partBefore := lookupA (jobId, normalizeCode item.partNumber) db.parts
  let up := partsUpsert db jobId item.partNumber item.description
  let db := up.1
  let partKey := up.2
  let res :=
    if partBefore.isSome then { res with partsUpdated := res.partsUpdated + 1 }
    else { res with partsCreated := res.partsCreated + 1 }
  let locBefore := lookupA (partKey.1, partKey.2, normalizeCode item.location) db.cells
  let qty := if item.quantity = 0 then 1 else item.quantity
  let db := locationsUpsert db partKey item.location qty
    ((strategy == Strategy.replace) || replaceQtyOnMerge)
  let res :=
    if locBefore.isSome then { res with locationsUpdated := res.locationsUpdated + 1 }
    else { res with locationsCreated := res.locationsCreated + 1 }
  (db, res)

/-- `ImportsAPI.executeImport` (`supabase-client.js` 814-910).  Under the
replace strategy the existing rows are deleted first and `results.deleted` is
set from a `parts` count query issued *after* that deletion.  Chunking only
drives the progress callback, so items are folded in order. -/
def executeImport (db : RemoteDB) (jobId : String) (strategy : Strategy)
    (items : List ImportItem) (replaceQtyOnMerge : Bool) :
    RemoteDB × ImportResults :=
  let res0 : ImportResults :=
    { partsCreated := 0, partsUpdated := 0, locationsCreated := 0,
      locationsUpdated := 0, deleted := 0 }
  let start :=
    if strategy = Strategy.replace then
      let db := partsDeleteByJob (locationsDeleteByJob db jobId) jobId
      (db, { res0 with deleted := countPartsForJob db jobId })
    else (db, res0)
  items.foldl (processItem jobId strategy replaceQtyOnMerge) start

/-! ## Remote-variant row normalization (`import.js` `executeImport` page
function, lines 1540-1551) -/

/-- The confirmed column mapping of the remote variant: header *names*, with
`""` for an unmapped optional column. -/
structure RemoteMapping where
  partNumber : String
  location : String
  additionalLocation : String
  quantity : String
  description : String
deriving DecidableEq

/-- `row[field] || ''` on a header-keyed row object. -/
def rowField (row : List (String × String)) (field : String) : String :=
  getD field row ""

/-- The item built from one parsed row (`import.js` 1540-1550). -/
def itemOfRow (m : RemoteMapping) (row : List (String × String)) : ImportItem :=
  let location := if m.location ≠ "" then rowField row m.location else ""
  let additionalLoc :=
    if m.additionalLocation ≠ "" then rowField row m.additionalLocation else ""
  let fullLocation :=
    if additionalLoc ≠ "" then location ++ " / " ++ additionalLoc else location
  let quantity : ℚ :=
    if m.quantity ≠ "" then
      match jsParseInt (rowField row m.quantity) with
      | none => 1
      | some v => if v = 0 then 1 else v
    else 1
  { partNumber := rowField row m.partNumber
    location := fullLocation
    quantity := quantity
    description := if m.description ≠ "" then rowField row m.description else "" }

/-- The full remote row normalization: map then the
`item.partNumber && item.location` filter (`import.js` 1551). -/
def itemsOfRows (m : RemoteMapping) (rows : List (List (String × String))) :
    List ImportItem :=
  (rows.map (itemOfRow m)).filter (fun it => it.partNumber != "" && it.location != "")

/-! ## The local reachability system for the ledger invariant -/

/-- The public ledger-mutating operations of the local variant. -/
inductive LOp where
  | ensure (jobId filename : String)
  | importRow (jobId partNumber location : String) (qty : JVal) (description : String)
  | adjust (jobId partNumber loc : String) (delta : ℚ)
  | assign (jobId partNumber loc : String) (value : ℚ)
  | fillAll (jobId partNumber : String)
  | fillOne (jobId partNumber loc : String)

/-- One operation applied to the application state.  `importRow` mirrors
the import flow: `ensureJob` on file ingestion, then `upsertPart` per row. -/
def applyOp (s : AppState) : LOp → AppState
  | .ensure j f => ensureJobState s j f
  | .importRow j pn loc q d =>
    modifyJob (ensureJobState s j j) j (fun job => upsertPart job pn loc q d)
  | .adjust j pn loc d => adjustAssignment s j pn loc d
  | .assign j pn loc v => setAssignment s j pn loc v
  | .fillAll j pn => markFullyAssigned s j pn
  | .fillOne j pn loc => fillOneLocation s j pn loc

/-- A whole operation sequence. -/
def applyOps (s : AppState) (ops : List LOp) : AppState := ops.foldl applyOp s

/-- The state before any data is ingested. -/
def initialState : AppState := { jobs := [], selectedJobId := none }

/-- Per-part invariant: location keys are unique (JS objects cannot hold
duplicate keys), every required quantity is positive, and every stored
assigned entry is within `[0, required]` of its location. -/
def PartInv (p : Part) : Prop :=
  (p.locations.map Prod.fst).Nodup ∧
  (∀ lr ∈ p.locations, 0 < lr.2) ∧
  (∀ la ∈ p.assigned, 0 ≤ la.2 ∧ la.2 ≤ getD la.1 p.locations 0)

/-- Whole-state invariant. -/
def StateInv (s : AppState) : Prop :=
  ∀ jj ∈ s.jobs, ∀ pp ∈ jj.2.parts, PartInv pp.2

/-- The assigned value of one cell addressed from the whole state. -/
def stateAssigned (s : AppState) (jobId pn loc : String) : ℚ :=
  match lookupA jobId s.jobs with
  | none => 0
  | some job => assignedOf job pn loc

/-! ## Merge-import contribution accounting (for the doubling claim) -/

/-- The contribution of one tuple to the cell `(pn, loc)` — the tuple's
quantity when it passes `upsertPart`'s validity guard and normalizes to that
cell, else 0. -/
def contrib (pn loc : String) (t : Tup) : ℚ :=
  if jsTrim t.pn ≠ "" ∧ 0 < t.qty ∧ jsTrim t.pn = pn ∧ jsOrS (jsTrim t.loc) "UNSPECIFIED" = loc
  then t.qty else 0

/-- Total required-quantity delta a tuple sequence contributes to a cell. -/
def deltaOf (ts : List Tup) (pn loc : String) : ℚ :=
  (ts.map (contrib pn loc)).sum

/-! ## Concrete fixtures used by witnesses and counterexamples -/

/-- A small well-formed part: 2 required at location `A`, none assigned. -/
def samplePart : Part := { description := "", locations := [("A", 2)], assigned := [("A", 0)] }

/-- A small well-formed job holding `samplePart` under part number `P`. -/
def sampleJob : Job := { id := "J", filename := "f.csv", pendingRaw := none, parts := [("P", samplePart)] }

/-- A small well-formed application state holding `sampleJob`. -/
def sampleState : AppState := { jobs := [("J", sampleJob)], selectedJobId := some "J" }

/-- A part whose stored assigned (9) exceeds its required (5), as an
unvalidated restore can install. -/
def clampPart : Part := { description := "", locations := [("A", 5)], assigned := [("A", 9)] }

/-- A job holding `clampPart`. -/
def clampJob : Job := { id := "J2", filename := "g.csv", pendingRaw := none, parts := [("Q", clampPart)] }

/-- The export row produced for `clampJob`'s single cell. -/
def clampRow : ReportRow :=
  { job := "J2", pn := "Q", loc := "A", req := 5, asg := 5, rem := 0, desc := "" }

/-- A job with a negative stored assigned quantity (installable by restore). -/
def badStatsJob : Job :=
  { id := "J", filename := "f", pendingRaw := none,
    parts := [("P", { description := "", locations := [("A", 1)], assigned := [("A", -1000)] })] }

/-- Merge tuple adding 3 required to cell `(P, A)`. -/
def mergeTup : Tup := { pn := "P", loc := "A", qty := 3, desc := "" }

/-- Remote column mapping with a quantity column mapped. -/
def remoteQtyMap : RemoteMapping :=
  { partNumber := "Part", location := "Loc", additionalLocation := "", quantity := "Qty",
    description := "" }

/-- A raw remote row whose quantity cell is the string `-3`. -/
def remoteNegRow : List (String × String) := [("Part", "P"), ("Loc", "A"), ("Qty", "-3")]

/-- Remote import item: 2 of part `P` at location `A`. -/
def remItemPA2 : ImportItem := { partNumber := "P", location := "A", quantity := 2, description := "" }

/-- Remote import item: 1 of part `P` at location `A`. -/
def remItemPA1 : ImportItem := { partNumber := "P", location := "A", quantity := 1, description := "" }

/-- Remote import item: 1 of part `P1` at location `A`. -/
def remItemP1 : ImportItem := { partNumber := "P1", location := "A", quantity := 1, description := "" }

/-- Remote import item: 1 of part `P2` at location `A`. -/
def remItemP2 : ImportItem := { partNumber := "P2", location := "A", quantity := 1, description := "" }

/-- Remote store after merge-importing 2 of `P` at `A` into job `j`. -/
def remDb1 : RemoteDB := (executeImport emptyDB "j" .merge [remItemPA2] false).1

/-- `remDb1` after assigning 2 at the cell (clamped, allowed: 2 ≤ 2). -/
def remDb2 : RemoteDB := (updateAssigned remDb1 ("j", "p", "a") 2).getD emptyDB

/-- `remDb2` after a merge import of 1 of `P` at `A` with `replaceQtyOnMerge`. -/
def remDb3 : RemoteDB := (executeImport remDb2 "j" .merge [remItemPA1] true).1

/-- Remote store holding two parts for job `j`, built by a merge import. -/
def remSeedDb : RemoteDB := (executeImport emptyDB "j" .merge [remItemP1, remItemP2] false).1

/-- A job with no parts yet. -/
def freshJobFixture : Job := { id := "F", filename := "h.csv", pendingRaw := none, parts := [] }

/-- A local operation sequence: create job `J`, import 2 of `P` at `A`. -/
def c1Ops : List LOp := [.ensure "J" "f.csv", .importRow "J" "P" "A" (.num 2) ""]

/-- The part reached by `c1Ops`. -/
def c1Part : Part := { description := "", locations := [("A", 2)], assigned := [("A", 0)] }

/-- The job reached by `c1Ops`. -/
def c1Job : Job := { id := "J", filename := "f.csv", pendingRaw := none, parts := [("P", c1Part)] }

/-- A local column mapping: part column 0, location column 1, quantity
column 2. -/
def dropMapping : LocalMapping :=
  { part := some 0, location := some 1, location2 := none, quantity := some 2,
    description := none }

/-- The headers going with `dropMapping`. -/
def dropHeaders : List String := ["Part", "Loc", "Qty"]

/-- A raw local row whose quantity cell is `-3`. -/
def dropRow : List String := ["P", "A", "-3"]

end PartsTracker

namespace PartsTracker

/-! ## Association-list lemmas -/

theorem lookupA_mem [DecidableEq κ] {k : κ} {v : α} {l : List (κ × α)}
    (h : lookupA k l = some v) : (k, v) ∈ l := by
  induction l with
  | nil => simp [lookupA] at h
  | cons hd tl ih =>
    obtain ⟨k', v'⟩ := hd
    by_cases hk : k' = k
    · subst hk
      simp [lookupA] at h
      subst h
      exact List.mem_cons_self _ _
    · simp [lookupA, hk] at h
      exact List.mem_cons_of_mem _ (ih h)

theorem mem_setA [DecidableEq κ] {k : κ} {v : α} {l : List (κ × α)} {p : κ × α}
    (h : p ∈ setA k v l) : p = (k, v) ∨ p ∈ l := by
  induction l with
  | nil => simpa [setA] using h
  | cons hd tl ih =>
    obtain ⟨k', v'⟩ := hd
    by_cases hk : k' = k
    · simp [setA, hk] at h
      rcases h with h | h
      · exact Or.inl h
      · exact Or.inr (List.mem_cons_of_mem _ h)
    · simp only [setA, if_neg hk, List.mem_cons] at h
      rcases h with h | h
      · exact Or.inr (by simp [h])
      · rcases ih h with h' | h'
        · exact Or.inl h'
        · exact Or.inr (List.mem_cons_of_mem _ h')

theorem lookupA_setA_self [DecidableEq κ] (k : κ) (v : α) (l : List (κ × α)) :
    lookupA k (setA k v l) = some v := by
  induction l with
  | nil => simp [setA, lookupA]
  | cons hd tl ih =>
    obtain ⟨k', v'⟩ := hd
    by_cases hk : k' = k
    · simp [setA, hk, lookupA]
    · simp [setA, hk, lookupA, ih]

theorem lookupA_setA_ne [DecidableEq κ] {k k' : κ} (v : α) (l : List (κ × α))
    (h : k' ≠ k) : lookupA k' (setA k v l) = lookupA k' l := by
  induction l with
  | nil => simp [setA, lookupA, Ne.symm h]
  | cons hd tl ih =>
    obtain ⟨k₀, v₀⟩ := hd
    by_cases hk : k₀ = k
    · subst hk
      simp [setA, lookupA, Ne.symm h]
    · simp only [setA, if_neg hk, lookupA]
      by_cases hk' : k₀ = k'
      · simp [hk']
      · simp [hk', ih]

theorem getD_setA_self [DecidableEq κ] (k : κ) (v d : α) (l : List (κ × α)) :
    getD k (setA k v l) d = v := by
  simp [getD, lookupA_setA_self]

theorem getD_setA_ne [DecidableEq κ] {k k' : κ} (v d : α) (l : List (κ × α))
    (h : k' ≠ k) : getD k' (setA k v l) d = getD k' l d := by
  simp [getD, lookupA_setA_ne v l h]

theorem fstMem_setA [DecidableEq κ] {k x : κ} {v : α} {l : List (κ × α)}
    (h : x ∈ (setA k v l).map Prod.fst) : x = k ∨ x ∈ l.map Prod.fst := by
  rcases List.mem_map.1 h with ⟨p, hp, hx⟩
  rcases mem_setA hp with h' | h'
  · subst h'
    exact Or.inl hx.symm
  · exact Or.inr (List.mem_map.2 ⟨p, h', hx⟩)

theorem nodup_setA [DecidableEq κ] {k : κ} {v : α} {l : List (κ × α)}
    (h : (l.map Prod.fst).Nodup) : ((setA k v l).map Prod.fst).Nodup := by
  induction l with
  | nil => simp [setA]
  | cons hd tl ih =>
    obtain ⟨k', v'⟩ := hd
    simp only [List.map_cons, List.nodup_cons] at h
    by_cases hk : k' = k
    · subst hk
      simpa [setA] using h
    · simp only [setA, if_neg hk, List.map_cons, List.nodup_cons]
      refine ⟨fun hmem => ?_, ih h.2⟩
      rcases fstMem_setA hmem with h' | h'
      · exact hk h'
      · exact h.1 h'

theorem lookupA_eq_of_mem_nodup [DecidableEq κ] {k : κ} {v : α} {l : List (κ × α)}
    (hnd : (l.map Prod.fst).Nodup) (h : (k, v) ∈ l) : lookupA k l = some v := by
  induction l with
  | nil => simp at h
  | cons hd tl ih =>
    obtain ⟨k', v'⟩ := hd
    simp only [List.map_cons, List.nodup_cons] at hnd
    rcases List.mem_cons.1 h with h' | h'
    · cases h'
      simp [lookupA]
    · have hk : k' ≠ k := by
        intro hkk
        subst hkk
        exact hnd.1 (List.mem_map.2 ⟨(k', v), h', rfl⟩)
      simp only [lookupA, if_neg hk]
      exact ih hnd.2 h'

theorem setA_eq_append [DecidableEq κ] {k : κ} (v : α) {l : List (κ × α)}
    (h : lookupA k l = none) : setA k v l = l ++ [(k, v)] := by
  induction l with
  | nil => simp [setA]
  | cons hd tl ih =>
    obtain ⟨k', v'⟩ := hd
    by_cases hk : k' = k
    · simp [lookupA, hk] at h
    · simp only [lookupA, if_neg hk] at h
      simp [setA, hk, ih h]

theorem getD_nonneg_of_pos [DecidableEq κ] {l : List (κ × ℚ)}
    (h : ∀ lr ∈ l, 0 < lr.2) (k : κ) : 0 ≤ getD k l 0 := by
  unfold getD
  cases hl : lookupA k l with
  | none => simp
  | some v => simpa using le_of_lt (h (k, v) (lookupA_mem hl))

/-! ## Header classifier facts -/

theorem findCandNe_ne (lower : List String) (avoid : Nat) (cands : List String)
    (i : Nat) (h : findCandNe lower avoid cands = some i) : i ≠ avoid := by
  induction cands with
  | nil => simp [findCandNe] at h
  | cons c rest ih =>
    simp only [findCandNe] at h
    cases hf : (List.range lower.length).find?
        (fun j => headerHit (List.getD lower j "") c && j ≠ avoid) with
    | none =>
      rw [hf] at h
      exact ih h
    | some i' =>
      rw [hf] at h
      have hi : i' = i := by simpa using h
      subst hi
      have hp := List.find?_some hf
      simp only [Bool.and_eq_true, decide_eq_true_eq] at hp
      exact hp.2

/-- Claim C6: the Header Classifier resolves
`["Part Number","Location","Cabinet","Qty","Description"]` to
`{part: 0, location: 1, location2: 2, quantity: 3, description: 4}`, and on
every header list `location2` is only searched once `location` is found and
never receives the same column index as `location`. -/
theorem C6_header_classifier :
    matchHeaders ["Part Number", "Location", "Cabinet", "Qty", "Description"] =
      { part := some 0, location := some 1, location2 := some 2,
        quantity := some 3, description := some 4 } ∧
    ∀ headers : List String,
      ((matchHeaders headers).location = none → (matchHeaders headers).location2 = none) ∧
      ∀ i j : Nat, (matchHeaders headers).location2 = some i →
        (matchHeaders headers).location = some j → i ≠ j := by
  constructor
  · decide
  · intro headers
    have hloc : (matchHeaders headers).location
        = findCand (headers.map (fun h => jsTrim (jsToLower h)))
            ["location", "loc", "panel", "cabinet"] := rfl
    cases hf : findCand (headers.map (fun h => jsTrim (jsToLower h)))
        ["location", "loc", "panel", "cabinet"] with
    | none =>
      have hloc2 : (matchHeaders headers).location2 = none := by
        show (match findCand (headers.map (fun h => jsTrim (jsToLower h)))
            ["location", "loc", "panel", "cabinet"] with
          | none => none
          | some p => findCandNe (headers.map (fun h => jsTrim (jsToLower h))) p
              ["cabinet", "panel", "room", "area", "section", "bay"]) = none
        rw [hf]
      refine ⟨fun _ => hloc2, fun i j h2 h1 => ?_⟩
      rw [hloc, hf] at h1
      cases h1
    | some p =>
      have hloc2 : (matchHeaders headers).location2
          = findCandNe (headers.map (fun h => jsTrim (jsToLower h))) p
              ["cabinet", "panel", "room", "area", "section", "bay"] := by
        show (match findCand (headers.map (fun h => jsTrim (jsToLower h)))
            ["location", "loc", "panel", "cabinet"] with
          | none => none
          | some q => findCandNe (headers.map (fun h => jsTrim (jsToLower h))) q
              ["cabinet", "panel", "room", "area", "section", "bay"]) = _
        rw [hf]
      constructor
      · intro h1
        rw [hloc, hf] at h1
        cases h1
      · intro i j h2 h1
        rw [hloc, hf] at h1
        have hj : p = j := by simpa using h1
        subst hj
        rw [hloc2] at h2
        exact findCandNe_ne _ _ _ _ h2

/-- Witness for C6 at the concrete header list: `location2` resolves to
column 2, distinct from `location`'s column 1. -/
theorem C6_header_classifier_witness :
    (matchHeaders ["Part Number", "Location", "Cabinet", "Qty", "Description"]).location2
        = some 2 ∧ (2 : Nat) ≠ 1 :=
  ⟨by decide,
    (C6_header_classifier.2 ["Part Number", "Location", "Cabinet", "Qty", "Description"]).2
      2 1 (by decide) (by decide)⟩

/-! ## Restore rejection -/

/-- Claim C9: restoring a payload that failed to parse or lacks `state.jobs`
leaves the in-memory state identical to its pre-restore snapshot. -/
theorem C9_restore_rejects_missing_jobs (s : AppState) (p : Option BackupData)
    (h : payloadJobs p = none) : restoreAll s p = s := by
  cases p with
  | none => rfl
  | some d =>
    cases hs : d.state with
    | none => simp [restoreAll, hs]
    | some st =>
      cases hj : st.jobs with
      | none => simp [restoreAll, hs, hj]
      | some jm =>
        exfalso
        simp [payloadJobs, hs, hj] at h

/-- Witness for C9: a concrete payload with `state` present but no `jobs`
leaves `sampleState` unchanged. -/
theorem C9_restore_rejects_missing_jobs_witness :
    restoreAll sampleState
      (some { state := some { jobs := none, selectedJobId := some "x" } }) = sampleState :=
  C9_restore_rejects_missing_jobs sampleState _ rfl

/-! ## Export clamping -/

/-- Claim C10: every export-report row, over arbitrary stored states
(including over-assigned ones installed by an unvalidated restore), has
`Assigned Qty ≤ Required Qty` and a non-negative `Remaining Qty`, since the
export writes `asg = min(req, assigned)` and `rem = max(0, req − asg)`. -/
theorem C10_export_clamped (job : Job) :
    ∀ r ∈ exportReportRows job, r.asg ≤ r.req ∧ 0 ≤ r.rem := by
  intro r hr
  simp only [exportReportRows, List.mem_flatMap, List.mem_map] at hr
  obtain ⟨pp, hpp, lr, hlr, hr⟩ := hr
  subst hr
  exact ⟨min_le_left _ _, le_max_left _ _⟩

/-! ## Job statistics -/

/-- Claim C7 (amended): for every Job all of whose stored required and
assigned quantities are non-negative, `computeJobStats` returns a pct lying in
`[0, 100]`, equal to 0 whenever the required total is 0, with the assigned
total clamped between 0 and the required total. -/
theorem C7_stats_pct_bounds (job : Job)
    (h : ∀ c ∈ cellsOf job, 0 ≤ c.1 ∧ 0 ≤ c.2) :
    0 ≤ (computeJobStats job).pct ∧ (computeJobStats job).pct ≤ 100 ∧
    ((computeJobStats job).required = 0 → (computeJobStats job).pct = 0) ∧
    0 ≤ (computeJobStats job).assigned ∧
    (computeJobStats job).assigned ≤ (computeJobStats job).required := by
  have hreq : 0 ≤ ((cellsOf job).map Prod.fst).sum := by
    refine List.sum_nonneg ?_
    intro x hx
    rcases List.mem_map.1 hx with ⟨c, hc, rfl⟩
    exact (h c hc).1
  have hasg : 0 ≤ ((cellsOf job).map (fun c => min c.2 c.1)).sum := by
    refine List.sum_nonneg ?_
    intro x hx
    rcases List.mem_map.1 hx with ⟨c, hc, rfl⟩
    exact le_min (h c hc).2 (h c hc).1
  have hle : ((cellsOf job).map (fun c => min c.2 c.1)).sum
      ≤ ((cellsOf job).map Prod.fst).sum := by
    refine List.sum_le_sum ?_
    intro c _
    exact min_le_right _ _
  have hR : (computeJobStats job).required = ((cellsOf job).map Prod.fst).sum := rfl
  have hA : (computeJobStats job).assigned
      = ((cellsOf job).map (fun c => min c.2 c.1)).sum := rfl
  have hP : (computeJobStats job).pct
      = if ((cellsOf job).map Prod.fst).sum ≠ 0 then
          jsRound (100 * ((cellsOf job).map (fun c => min c.2 c.1)).sum
            / ((cellsOf job).map Prod.fst).sum)
        else 0 := rfl
  rw [hR, hA, hP]
  set r := ((cellsOf job).map Prod.fst).sum with hr
  set a := ((cellsOf job).map (fun c => min c.2 c.1)).sum with ha
  by_cases hr0 : r = 0
  · simp [hr0, hasg, hle.trans_eq hr0]
  · have hrpos : 0 < r := lt_of_le_of_ne hreq (Ne.symm hr0)
    have hx0 : 0 ≤ 100 * a / r := by positivity
    have hx100 : 100 * a / r ≤ 100 := by
      rw [div_le_iff hrpos]
      nlinarith
    have hlow : (0 : ℤ) ≤ jsRound (100 * a / r) := by
      rw [jsRound]
      refine Int.le_floor.2 ?_
      push_cast
      linarith
    have hhigh : jsRound (100 * a / r) ≤ 100 := by
      rw [jsRound]
      have : (⌊100 * a / r + 1 / 2⌋ : ℤ) < 101 := by
        refine Int.floor_lt.2 ?_
        push_cast
        linarith
      omega
    refine ⟨by simpa [hr0] using hlow, by simpa [hr0] using hhigh, fun hc => absurd hc hr0,
      hasg, hle⟩

/-- Counterexample to C7 as stated for arbitrary Jobs: a stored assigned
quantity of −1000 (installable by an unvalidated restore) drives pct to
−100000, outside `[0, 100]`. -/
theorem C7_stats_counterexample :
    (computeJobStats badStatsJob).pct = -100000 ∧
    ¬(0 ≤ (computeJobStats badStatsJob).pct ∧ (computeJobStats badStatsJob).pct ≤ 100) := by
  have hp : (computeJobStats badStatsJob).pct = -100000 := by
    have hcells : cellsOf badStatsJob = [(1, -1000)] := by
      simp [cellsOf, badStatsJob, getD, lookupA]
    have hpct : (computeJobStats badStatsJob).pct
        = if ((cellsOf badStatsJob).map Prod.fst).sum ≠ 0 then
            jsRound (100 * ((cellsOf badStatsJob).map (fun c => min c.2 c.1)).sum
              / ((cellsOf badStatsJob).map Prod.fst).sum)
          else 0 := rfl
    rw [hpct, hcells]
    have h1 : (([(1, -1000)] : List (ℚ × ℚ)).map Prod.fst).sum = 1 := by norm_num
    have h2 : (([(1, -1000)] : List (ℚ × ℚ)).map (fun c => min c.2 c.1)).sum = -1000 := by
      norm_num [min_def]
    rw [h1, h2, if_pos (by norm_num : (1 : ℚ) ≠ 0)]
    rw [show (100 : ℚ) * (-1000) / 1 = -100000 by norm_num]
    rw [jsRound]
    refine Int.floor_eq_iff.2 ?_
    constructor <;> push_cast <;> norm_num
  refine ⟨hp, ?_⟩
  rw [hp]
  omega

/-- Witness for C7 on a well-formed sample job. -/
theorem C7_stats_pct_bounds_witness :
    (∀ c ∈ cellsOf sampleJob, 0 ≤ c.1 ∧ 0 ≤ c.2) ∧
    0 ≤ (computeJobStats sampleJob).pct ∧ (computeJobStats sampleJob).pct ≤ 100 := by
  have hc : ∀ c ∈ cellsOf sampleJob, 0 ≤ c.1 ∧ 0 ≤ c.2 := by
    intro c hc
    simp [cellsOf, sampleJob, samplePart, getD, lookupA] at hc
    simp [hc]
  have h := C7_stats_pct_bounds sampleJob hc
  exact ⟨hc, h.1, h.2.1⟩

/-! ## Adjust inverse -/

theorem adjust_shape (s : AppState) (jobId pn loc : String) (delta : ℚ)
    (job : Job) (part : Part)
    (hj : lookupA jobId s.jobs = some job)
    (hp : lookupA pn job.parts = some part) :
    adjustAssignment s jobId pn loc delta
      = AppState.mk
          (setA jobId
            (Job.mk job.id job.filename job.pendingRaw
              (setA pn
                (Part.mk part.description part.locations
                  (setA loc
                    (max 0 (min (getD loc part.locations 0) (getD loc part.assigned 0 + delta)))
                    part.assigned))
                job.parts))
            s.jobs)
          s.selectedJobId := by
  simp only [adjustAssignment, hj, hp]

/-- Claim C8: on an existing cell, `adjust(delta)` then `adjust(-delta)`
restores the prior assigned value whenever neither intermediate result is
clamped at 0 or at the required quantity. -/
theorem C8_adjust_inverse (s : AppState) (jobId pn loc : String) (delta : ℚ)
    (job : Job) (part : Part)
    (hj : lookupA jobId s.jobs = some job)
    (hp : lookupA pn job.parts = some part)
    (h1 : 0 ≤ getD loc part.assigned 0 + delta)
    (h2 : getD loc part.assigned 0 + delta ≤ getD loc part.locations 0)
    (h3 : 0 ≤ getD loc part.assigned 0)
    (h4 : getD loc part.assigned 0 ≤ getD loc part.locations 0) :
    stateAssigned
      (adjustAssignment (adjustAssignment s jobId pn loc delta) jobId pn loc (-delta))
      jobId pn loc = getD loc part.assigned 0 := by
  rw [adjust_shape s jobId pn loc delta job part hj hp]
  rw [min_eq_right h2, max_eq_right h1]
  rw [adjust_shape _ jobId pn loc (-delta) _ _ (lookupA_setA_self _ _ _)
    (lookupA_setA_self _ _ _)]
  simp only [stateAssigned, lookupA_setA_self, assignedOf, getD_setA_self]
  rw [add_neg_cancel_right, min_eq_right h4, max_eq_right h3]

/-- Witness for C8: adjusting the sample cell by +1 then −1 restores its
assigned value 0. -/
theorem C8_adjust_inverse_witness :
    stateAssigned
      (adjustAssignment (adjustAssignment sampleState "J" "P" "A" 1) "J" "P" "A" (-1))
      "J" "P" "A" = 0 := by
  have h := C8_adjust_inverse sampleState "J" "P" "A" 1 sampleJob samplePart
    (by decide) (by decide)
    (by norm_num [samplePart, getD, lookupA])
    (by norm_num [samplePart, getD, lookupA])
    (by norm_num [samplePart, getD, lookupA])
    (by norm_num [samplePart, getD, lookupA])
  rw [h]
  norm_num [samplePart, getD, lookupA]

/-! ## Benign-miss behaviour of the assignment operations -/

theorem set_shape (s : AppState) (jobId pn loc : String) (value : ℚ)
    (job : Job) (part : Part)
    (hj : lookupA jobId s.jobs = some job)
    (hp : lookupA pn job.parts = some part) :
    setAssignment s jobId pn loc value
      = AppState.mk
          (setA jobId
            (Job.mk job.id job.filename job.pendingRaw
              (setA pn
                (Part.mk part.description part.locations
                  (setA loc (max 0 (min (getD loc part.locations 0) value)) part.assigned))
                job.parts))
            s.jobs)
          s.selectedJobId := by
  simp only [setAssignment, hj, hp]

/-- Claim C2 (amended): on a missing Job or Part every assignment operation
returns the state unchanged; `fillOne` on a missing location is also a strict
no-op; but `adjust` and `set` on a location absent from both per-part maps
return the state with an `assignedQty = 0` entry appended for that location
(all required maps and all existing assigned entries unchanged). -/
theorem C2_missing_target_behavior (s : AppState) (jobId pn loc : String)
    (delta value : ℚ) :
    (lookupA jobId s.jobs = none →
      adjustAssignment s jobId pn loc delta = s ∧
      setAssignment s jobId pn loc value = s ∧
      markFullyAssigned s jobId pn = s ∧
      fillOneLocation s jobId pn loc = s) ∧
    (∀ job, lookupA jobId s.jobs = some job → lookupA pn job.parts = none →
      adjustAssignment s jobId pn loc delta = s ∧
      setAssignment s jobId pn loc value = s ∧
      markFullyAssigned s jobId pn = s ∧
      fillOneLocation s jobId pn loc = s) ∧
    (∀ job part, lookupA jobId s.jobs = some job → lookupA pn job.parts = some part →
      lookupA loc part.locations = none → lookupA loc part.assigned = none →
      fillOneLocation s jobId pn loc = s ∧
      adjustAssignment s jobId pn loc delta
        = AppState.mk
            (setA jobId
              (Job.mk job.id job.filename job.pendingRaw
                (setA pn
                  (Part.mk part.description part.locations (part.assigned ++ [(loc, 0)]))
                  job.parts))
              s.jobs)
            s.selectedJobId ∧
      setAssignment s jobId pn loc value
        = AppState.mk
            (setA jobId
              (Job.mk job.id job.filename job.pendingRaw
                (setA pn
                  (Part.mk part.description part.locations (part.assigned ++ [(loc, 0)]))
                  job.parts))
              s.jobs)
            s.selectedJobId) := by
  refine ⟨fun hj => ?_, fun job hj hp => ?_, fun job part hj hp hl ha => ?_⟩
  · exact ⟨by simp [adjustAssignment, hj], by simp [setAssignment, hj],
      by simp [markFullyAssigned, hj], by simp [fillOneLocation, hj]⟩
  · exact ⟨by simp [adjustAssignment, hj, hp], by simp [setAssignment, hj, hp],
      by simp [markFullyAssigned, hj, hp], by simp [fillOneLocation, hj, hp]⟩
  · have hgl : getD loc part.locations 0 = 0 := by simp [getD, hl]
    have hga : getD loc part.assigned 0 = 0 := by simp [getD, ha]
    have hfill : fillOneLocation s jobId pn loc = s := by
      simp [fillOneLocation, hj, hp, hgl]
    have hclamp : ∀ x : ℚ, max 0 (min (getD loc part.locations 0) x) = 0 := by
      intro x
      rw [hgl]
      exact max_eq_left (min_le_left 0 x)
    have happend : setA loc (0 : ℚ) part.assigned = part.assigned ++ [(loc, 0)] :=
      setA_eq_append 0 ha
    refine ⟨hfill, ?_, ?_⟩
    · rw [adjust_shape s jobId pn loc delta job part hj hp, hga, hclamp, happend]
    · rw [set_shape s jobId pn loc value job part hj hp, hclamp, happend]

/-- Counterexample to C2 as stated: adjusting at a location that does not
exist is not a no-op — it inserts an `assignedQty = 0` entry, changing the
stored ledger state. -/
theorem C2_missing_target_counterexample :
    adjustAssignment sampleState "J" "P" "B" 1 ≠ sampleState := by
  rw [adjust_shape sampleState "J" "P" "B" 1 sampleJob samplePart (by decide) (by decide)]
  intro hcontra
  have hjobs := congrArg AppState.jobs hcontra
  simp only [sampleState, sampleJob, samplePart, setA, getD, lookupA] at hjobs
  simp at hjobs

/-- Witness for C2: a missing job is a strict no-op, and `fillOne` on a
missing location is a strict no-op. -/
theorem C2_missing_target_witness :
    adjustAssignment sampleState "X" "P" "A" 1 = sampleState ∧
    fillOneLocation sampleState "J" "P" "B" = sampleState :=
  ⟨((C2_missing_target_behavior sampleState "X" "P" "A" 1 1).1 (by decide)).1,
    ((C2_missing_target_behavior sampleState "J" "P" "B" 1 1).2.2 sampleJob samplePart
      (by decide) (by decide) (by decide) (by decide)).1⟩

/-! ## Row rejection during import -/

/-- Claim C3 (amended): in the local import path, a row whose resolved part
number trims to empty, or whose resolved quantity is unparseable (`NaN`
converts to 0) or ≤ 0, is silently dropped: `processRow` returns the job
unchanged.  (In the remote import path this fails — see the counterexample.) -/
theorem C3_local_row_rejection (job : Job) (m : LocalMapping) (headers : List String)
    (r : List String)
    (h : jsTrim (resolvedPart m headers r) = "" ∨
      (jsToNumber (resolvedQty m r)).getD 0 ≤ 0) :
    processRow job m headers r = job := by
  simp only [processRow, upsertPart]
  rw [if_pos h]

/-- Witness for C3: the local row `["P","A","-3"]` resolves to quantity −3
and is dropped. -/
theorem C3_local_row_rejection_witness :
    (jsToNumber (resolvedQty dropMapping dropRow)).getD 0 = -3 ∧
    processRow sampleJob dropMapping dropHeaders dropRow = sampleJob := by
  have hq : (jsToNumber (resolvedQty dropMapping dropRow)).getD 0 = -3 := by
    simp [resolvedQty, dropMapping, dropRow, jsToNumber, jsStrToNumber, jsTrim, isWsChar,
      parseUnsignedQ, natOfDigits]
  exact ⟨hq, C3_local_row_rejection sampleJob dropMapping dropHeaders dropRow
    (Or.inr (by rw [hq]; norm_num))⟩

/-- Counterexample to C3 in the remote import path: the row whose quantity
cell is `"-3"` is not dropped — it yields an import item with quantity −3,
and the import creates a cell with `qty_required = −3` (and quantity cells
`"0"` or `"abc"` would be coerced to 1, not dropped). -/
theorem C3_remote_negative_row_counterexample :
    itemsOfRows remoteQtyMap [remoteNegRow]
      = [{ partNumber := "P", location := "A", quantity := -3, description := "" }] ∧
    (executeImport emptyDB "j" .merge (itemsOfRows remoteQtyMap [remoteNegRow]) false).1.cells
      = [(("j", "p", "a"),
          { location := "A", qtyRequired := -3, qtyAssigned := 0 })] := by
  have hitems : itemsOfRows remoteQtyMap [remoteNegRow]
      = [{ partNumber := "P", location := "A", quantity := -3, description := "" }] := by
    simp [itemsOfRows, itemOfRow, remoteQtyMap, remoteNegRow, rowField, getD, lookupA,
      jsParseInt, jsTrim, isWsChar, natOfDigits]
  refine ⟨hitems, ?_⟩
  rw [hitems]
  have hnp : normalizeCode "P" = "p" := by decide
  have hna : normalizeCode "A" = "a" := by decide
  simp [executeImport, processItem, partsUpsert, locationsUpsert, emptyDB, lookupA, setA,
    hnp, hna]

/-! ## Effect of one upsert on a cell -/

theorem descTweak_locations (p : Part) (d : String) : (descTweak p d).locations = p.locations := by
  unfold descTweak
  split <;> rfl

theorem descTweak_assigned (p : Part) (d : String) : (descTweak p d).assigned = p.assigned := by
  unfold descTweak
  split <;> rfl

theorem asgInit_locations (p : Part) (loc : String) : (asgInit p loc).locations = p.locations := by
  unfold asgInit
  split <;> rfl

theorem getD_asgInit_assigned (p : Part) (loc k : String) :
    getD k (asgInit p loc).assigned 0 = getD k p.assigned (0 : ℚ) := by
  unfold asgInit
  cases hl : lookupA loc p.assigned with
  | some v => rfl
  | none =>
    by_cases hk : loc = k
    · subst hk
      show getD loc (setA loc 0 p.assigned) 0 = getD loc p.assigned 0
      rw [getD_setA_self]
      simp [getD, hl]
    · show getD k (setA loc 0 p.assigned) 0 = getD k p.assigned 0
      rw [getD_setA_ne _ _ _ (Ne.symm hk)]

theorem getD_basePart_locations (j : Job) (pn loc : String) :
    getD loc (basePart j pn).locations 0 = requiredOf j pn loc := by
  unfold basePart requiredOf
  cases lookupA pn j.parts with
  | some p => rfl
  | none => simp [getD, lookupA]

theorem getD_basePart_assigned (j : Job) (pn loc : String) :
    getD loc (basePart j pn).assigned 0 = assignedOf j pn loc := by
  unfold basePart assignedOf
  cases lookupA pn j.parts with
  | some p => rfl
  | none => simp [getD, lookupA]

theorem upsertPart_valid_shape (j : Job) (P L : String) (q : JVal) (d : String)
    (h : ¬(jsTrim P = "" ∨ (jsToNumber q).getD 0 ≤ 0)) :
    upsertPart j P L q d
      = Job.mk j.id j.filename j.pendingRaw
          (setA (jsTrim P)
            (asgInit
              (Part.mk (descTweak (basePart j (jsTrim P)) d).description
                (setA (jsOrS (jsTrim L) "UNSPECIFIED")
                  (getD (jsOrS (jsTrim L) "UNSPECIFIED")
                    (descTweak (basePart j (jsTrim P)) d).locations 0
                    + (jsToNumber q).getD 0)
                  (descTweak (basePart j (jsTrim P)) d).locations)
                (descTweak (basePart j (jsTrim P)) d).assigned)
              (jsOrS (jsTrim L) "UNSPECIFIED"))
            j.parts) := by
  simp only [upsertPart]
  rw [if_neg h]

theorem upsertPart_dropped (j : Job) (P L : String) (q : JVal) (d : String)
    (h : jsTrim P = "" ∨ (jsToNumber q).getD 0 ≤ 0) :
    upsertPart j P L q d = j := by
  simp only [upsertPart]
  rw [if_pos h]

theorem requiredOf_upsertPart (j : Job) (t : Tup) (pn loc : String) :
    requiredOf (upsertPart j t.pn t.loc (.num t.qty) t.desc) pn loc
      = requiredOf j pn loc + contrib pn loc t := by
  by_cases hval : jsTrim t.pn = "" ∨ t.qty ≤ 0
  · have hc : contrib pn loc t = 0 := by
      unfold contrib
      rw [if_neg]
      rintro ⟨h1, h2, -, -⟩
      rcases hval with h | h
      · exact h1 h
      · exact absurd h2 (not_lt.2 h)
    rw [upsertPart_dropped _ _ _ _ _ (by simpa [jsToNumber] using hval), hc, add_zero]
  · push_neg at hval
    have hne : ¬(jsTrim t.pn = "" ∨ (jsToNumber (JVal.num t.qty)).getD 0 ≤ 0) := by
      simpa [jsToNumber] using hval
    rw [upsertPart_valid_shape _ _ _ _ _ hne]
    simp only [jsToNumber, Option.getD_some]
    unfold requiredOf
    by_cases hpn : jsTrim t.pn = pn
    · subst hpn
      rw [lookupA_setA_self]
      simp only [asgInit_locations]
      by_cases hloc : jsOrS (jsTrim t.loc) "UNSPECIFIED" = loc
      · subst hloc
        rw [getD_setA_self]
        rw [descTweak_locations, getD_basePart_locations]
        unfold requiredOf contrib
        rw [if_pos ⟨hval.1, hval.2, rfl, rfl⟩]
      · rw [getD_setA_ne _ _ _ (fun hh => hloc hh.symm)]
        rw [descTweak_locations, getD_basePart_locations]
        unfold requiredOf contrib
        rw [if_neg (by rintro ⟨-, -, -, h4⟩; exact hloc h4)]
        cases lookupA (jsTrim t.pn) j.parts <;> simp
    · show (match lookupA pn (setA (jsTrim t.pn) _ j.parts) with
          | none => (0 : ℚ)
          | some p => getD loc p.locations 0) = _
      rw [lookupA_setA_ne _ _ (Ne.symm hpn)]
      unfold contrib
      rw [if_neg (by rintro ⟨-, -, h3, -⟩; exact hpn h3)]
      cases lookupA pn j.parts <;> simp

theorem assignedOf_upsertPart (j : Job) (P L : String) (q : JVal) (d : String)
    (pn loc : String) :
    assignedOf (upsertPart j P L q d) pn loc = assignedOf j pn loc := by
  by_cases hval : jsTrim P = "" ∨ (jsToNumber q).getD 0 ≤ 0
  · rw [upsertPart_dropped _ _ _ _ _ hval]
  · rw [upsertPart_valid_shape _ _ _ _ _ hval]
    unfold assignedOf
    by_cases hpn : jsTrim P = pn
    · subst hpn
      simp only [lookupA_setA_self]
      rw [getD_asgInit_assigned]
      show getD loc (descTweak (basePart j (jsTrim P)) d).assigned 0 = _
      rw [descTweak_assigned, getD_basePart_assigned]
      unfold assignedOf
      rfl
    · show (match lookupA pn (setA (jsTrim P) _ j.parts) with
          | none => (0 : ℚ)
          | some p => getD loc p.assigned 0) = _
      rw [lookupA_setA_ne _ _ (Ne.symm hpn)]

/-! ## Merge import additivity and the doubling law -/

theorem importTuples_required (ts : List Tup) (j : Job) (pn loc : String) :
    requiredOf (importTuples j ts) pn loc = requiredOf j pn loc + deltaOf ts pn loc := by
  induction ts generalizing j with
  | nil => simp [importTuples, deltaOf]
  | cons t tl ih =>
    show requiredOf (importTuples (upsertPart j t.pn t.loc (.num t.qty) t.desc) tl) pn loc = _
    rw [ih, requiredOf_upsertPart]
    simp only [deltaOf, List.map_cons, List.sum_cons]
    ring

theorem importTuples_assigned (ts : List Tup) (j : Job) (pn loc : String) :
    assignedOf (importTuples j ts) pn loc = assignedOf j pn loc := by
  induction ts generalizing j with
  | nil => rfl
  | cons t tl ih =>
    show assignedOf (importTuples (upsertPart j t.pn t.loc (.num t.qty) t.desc) tl) pn loc = _
    rw [ih, assignedOf_upsertPart]

/-- Claim C5 (amended): importing a tuple sequence twice under merge into a
Job that starts with an empty part set gives every cell twice the required
quantity of a single import, and the second import leaves every assigned
quantity exactly as it was.  (For a job with pre-existing parts the doubling
fails — see the counterexample.) -/
theorem C5_merge_double_import (j0 : Job) (h : j0.parts = []) (ts : List Tup)
    (pn loc : String) :
    requiredOf (importTuples (importTuples j0 ts) ts) pn loc
      = 2 * requiredOf (importTuples j0 ts) pn loc ∧
    assignedOf (importTuples (importTuples j0 ts) ts) pn loc
      = assignedOf (importTuples j0 ts) pn loc := by
  have h0 : requiredOf j0 pn loc = 0 := by
    unfold requiredOf
    rw [h]
    rfl
  constructor
  · rw [importTuples_required, importTuples_required, h0]
    ring
  · rw [importTuples_assigned]

/-- Counterexample to C5 as universally stated: for a Job already holding
2 required at cell `(P, A)`, importing `[3 of P at A]` once gives 5 but twice
gives 8, not 10. -/
theorem C5_merge_double_counterexample :
    requiredOf (importTuples sampleJob [mergeTup]) "P" "A" = 5 ∧
    requiredOf (importTuples (importTuples sampleJob [mergeTup]) [mergeTup]) "P" "A" = 8 ∧
    ¬(requiredOf (importTuples (importTuples sampleJob [mergeTup]) [mergeTup]) "P" "A"
        = 2 * requiredOf (importTuples sampleJob [mergeTup]) "P" "A") := by
  have hr0 : requiredOf sampleJob "P" "A" = 2 := by
    simp [requiredOf, sampleJob, samplePart, getD, lookupA]
  have hd : deltaOf [mergeTup] "P" "A" = 3 := by
    have hc : contrib "P" "A" mergeTup = 3 := by
      unfold contrib mergeTup
      rw [if_pos]
      refine ⟨?_, by norm_num, ?_, ?_⟩ <;> simp [jsTrim, isWsChar, jsOrS]
    simp [deltaOf, hc]
  have h1 : requiredOf (importTuples sampleJob [mergeTup]) "P" "A" = 5 := by
    rw [importTuples_required, hr0, hd]
    norm_num
  have h2 : requiredOf (importTuples (importTuples sampleJob [mergeTup]) [mergeTup]) "P" "A"
      = 8 := by
    rw [importTuples_required, h1, hd]
    norm_num
  refine ⟨h1, h2, ?_⟩
  rw [h1, h2]
  norm_num

/-- Witness for C5 on a fresh job: importing `[3 of P at A]` twice doubles
the required quantity (3 then 6) and keeps assigned at 0. -/
theorem C5_merge_double_import_witness :
    (freshJobFixture.parts = []) ∧
    requiredOf (importTuples (importTuples freshJobFixture [mergeTup]) [mergeTup]) "P" "A"
      = 2 * requiredOf (importTuples freshJobFixture [mergeTup]) "P" "A" ∧
    assignedOf (importTuples (importTuples freshJobFixture [mergeTup]) [mergeTup]) "P" "A"
      = assignedOf (importTuples freshJobFixture [mergeTup]) "P" "A" := by
  have h := C5_merge_double_import freshJobFixture rfl [mergeTup] "P" "A"
  exact ⟨rfl, h.1, h.2⟩

/-! ## Replace-import result accounting -/

theorem filter_ne_then_eq_nil (jobId : String) (l : List ((String × String) × RPart)) :
    (l.filter (fun p => p.1.1 ≠ jobId)).filter (fun p => p.1.1 = jobId) = [] := by
  induction l with
  | nil => rfl
  | cons hd tl ih =>
    by_cases h : hd.1.1 = jobId
    · simp [List.filter_cons, h, ih]
    · simp [List.filter_cons, h, ih]

theorem processItem_deleted (jobId : String) (st : Strategy) (rq : Bool)
    (acc : RemoteDB × ImportResults) (item : ImportItem) :
    (processItem jobId st rq acc item).2.deleted = acc.2.deleted := by
  simp only [processItem]
  split <;> split <;> rfl

theorem foldl_processItem_deleted (jobId : String) (st : Strategy) (rq : Bool)
    (items : List ImportItem) (acc : RemoteDB × ImportResults) :
    (items.foldl (processItem jobId st rq) acc).2.deleted = acc.2.deleted := by
  induction items generalizing acc with
  | nil => rfl
  | cons it tl ih => rw [List.foldl_cons, ih, processItem_deleted]

/-- Claim C4: the per-item created/updated counts do come from existence
checks made just before each upsert, but the replace-strategy `deleted` count
does not equal the number of parts the job held before the import — the code
issues the count query *after* deleting them, so `deleted` is always 0.  Here
the job holds 2 parts before a replace import, yet the result reports 0. -/
theorem C4_replace_deleted_is_zero :
    countPartsForJob remSeedDb "j" = 2 ∧
    (executeImport remSeedDb "j" .replace [remItemP1] false).2.deleted = 0 := by
  constructor
  · have hn1 : normalizeCode "P1" = "p1" := by decide
    have hn2 : normalizeCode "P2" = "p2" := by decide
    have hna : normalizeCode "A" = "a" := by decide
    simp [remSeedDb, executeImport, processItem, partsUpsert, locationsUpsert,
      countPartsForJob, emptyDB, lookupA, setA, hn1, hn2, hna, remItemP1, remItemP2]
  · have h : executeImport remSeedDb "j" .replace [remItemP1] false
        = List.foldl (processItem "j" .replace false)
            (partsDeleteByJob (locationsDeleteByJob remSeedDb "j") "j",
              { partsCreated := 0, partsUpdated := 0, locationsCreated := 0,
                locationsUpdated := 0,
                deleted := countPartsForJob
                  (partsDeleteByJob (locationsDeleteByJob remSeedDb "j") "j") "j" })
            [remItemP1] := rfl
    rw [h, foldl_processItem_deleted]
    simp only [countPartsForJob, partsDeleteByJob, locationsDeleteByJob]
    rw [filter_ne_then_eq_nil]
    rfl

/-- Witness for C10 on a job whose stored assigned (9) exceeds required (5):
the exported row shows 5 assigned and 0 remaining. -/
theorem C10_export_clamped_witness :
    clampRow ∈ exportReportRows clampJob ∧ (clampRow.asg ≤ clampRow.req ∧ 0 ≤ clampRow.rem) := by
  have hmem : clampRow ∈ exportReportRows clampJob := by
    norm_num [exportReportRows, clampJob, clampPart, clampRow, getD, lookupA]
  exact ⟨hmem, C10_export_clamped clampJob clampRow hmem⟩

/-! ## The ledger cell invariant -/

theorem PartInv_empty : PartInv { description := "", locations := [], assigned := [] } := by
  refine ⟨by simp, by simp, by simp⟩

theorem PartInv_descTweak (p : Part) (d : String) (h : PartInv p) :
    PartInv (descTweak p d) := by
  unfold descTweak
  split
  · exact h
  · exact h

theorem PartInv_basePart (job : Job) (pn : String)
    (h : ∀ pp ∈ job.parts, PartInv pp.2) : PartInv (basePart job pn) := by
  unfold basePart
  cases hl : lookupA pn job.parts with
  | some p => exact h (pn, p) (lookupA_mem hl)
  | none => exact PartInv_empty

theorem PartInv_locUpd (p : Part) (loc : String) (q : ℚ) (hq : 0 < q) (h : PartInv p) :
    PartInv { p with locations := setA loc (getD loc p.locations 0 + q) p.locations } := by
  obtain ⟨hnd, hpos, hasg⟩ := h
  refine ⟨nodup_setA hnd, ?_, ?_⟩
  · intro lr hlr
    rcases mem_setA hlr with h' | h'
    · rw [h']
      exact add_pos_of_nonneg_of_pos (getD_nonneg_of_pos hpos loc) hq
    · exact hpos lr h'
  · intro la hla
    refine ⟨(hasg la hla).1, ?_⟩
    show la.2 ≤ getD la.1 (setA loc (getD loc p.locations 0 + q) p.locations) 0
    by_cases hk : la.1 = loc
    · rw [hk, getD_setA_self]
      refine le_trans ?_ (le_add_of_nonneg_right hq.le)
      rw [← hk]
      exact (hasg la hla).2
    · rw [getD_setA_ne _ _ _ hk]
      exact (hasg la hla).2

theorem PartInv_asgInit (p : Part) (loc : String) (h : PartInv p) :
    PartInv (asgInit p loc) := by
  unfold asgInit
  cases hl : lookupA loc p.assigned with
  | some v => exact h
  | none =>
    obtain ⟨hnd, hpos, hasg⟩ := h
    refine ⟨hnd, hpos, ?_⟩
    intro la hla
    rcases mem_setA hla with h' | h'
    · rw [h']
      exact ⟨le_refl 0, getD_nonneg_of_pos hpos loc⟩
    · exact hasg la h'

theorem PartInv_setAsg (p : Part) (loc : String) (v : ℚ) (h : PartInv p)
    (h0 : 0 ≤ v) (hle : v ≤ getD loc p.locations 0) :
    PartInv { p with assigned := setA loc v p.assigned } := by
  obtain ⟨hnd, hpos, hasg⟩ := h
  refine ⟨hnd, hpos, ?_⟩
  intro la hla
  rcases mem_setA hla with h' | h'
  · rw [h']
    exact ⟨h0, hle⟩
  · exact hasg la h'

theorem PartInv_fillAll (p : Part) (h : PartInv p) :
    PartInv { p with assigned :=
        p.locations.foldl (fun asg lr => setA lr.1 lr.2 asg) p.assigned } := by
  obtain ⟨hnd, hpos, hasg⟩ := h
  refine ⟨hnd, hpos, ?_⟩
  have key : ∀ (ls asg : List (String × ℚ)),
      (∀ la ∈ asg, 0 ≤ la.2 ∧ la.2 ≤ getD la.1 p.locations 0) →
      (∀ lr ∈ ls, 0 ≤ lr.2 ∧ lr.2 ≤ getD lr.1 p.locations 0) →
      ∀ la ∈ ls.foldl (fun a lr => setA lr.1 lr.2 a) asg,
        0 ≤ la.2 ∧ la.2 ≤ getD la.1 p.locations 0 := by
    intro ls
    induction ls with
    | nil => intro asg ha _ la hla; exact ha la hla
    | cons lr tl ih =>
      intro asg ha hl la hla
      rw [List.foldl_cons] at hla
      refine ih (setA lr.1 lr.2 asg) ?_ (fun x hx => hl x (List.mem_cons_of_mem _ hx)) la hla
      intro x hx
      rcases mem_setA hx with h' | h'
      · rw [h']
        exact hl lr (List.mem_cons_self _ _)
      · exact ha x h'
  refine key p.locations p.assigned hasg ?_
  intro lr hlr
  have hlk : lookupA lr.1 p.locations = some lr.2 :=
    lookupA_eq_of_mem_nodup hnd (by rw [Prod.mk.eta]; exact hlr)
  refine ⟨(hpos lr hlr).le, ?_⟩
  rw [getD, hlk]
  rfl

theorem StateInv_updJob (s : AppState) (jobId : String) (job' : Job)
    (sel : Option String) (hs : StateInv s)
    (hjob : ∀ pp ∈ job'.parts, PartInv pp.2) :
    StateInv (AppState.mk (setA jobId job' s.jobs) sel) := by
  intro jj hjj
  rcases mem_setA hjj with h | h
  · rw [h]
    exact hjob
  · exact hs jj h

theorem jobParts_inv (s : AppState) (jobId : String) (job : Job)
    (hs : StateInv s) (hj : lookupA jobId s.jobs = some job) :
    ∀ pp ∈ job.parts, PartInv pp.2 :=
  hs (jobId, job) (lookupA_mem hj)

theorem partsInv_setA (job : Job) (pn : String) (part' : Part)
    (hjob : ∀ pp ∈ job.parts, PartInv pp.2) (hp : PartInv part') :
    ∀ pp ∈ setA pn part' job.parts, PartInv pp.2 := by
  intro pp hpp
  rcases mem_setA hpp with h | h
  · rw [h]
    exact hp
  · exact hjob pp h

theorem StateInv_ensure (s : AppState) (jobId filename : String) (hs : StateInv s) :
    StateInv (ensureJobState s jobId filename) := by
  unfold ensureJobState
  cases hl : lookupA jobId s.jobs with
  | some _ => exact hs
  | none =>
    refine StateInv_updJob s jobId _ s.selectedJobId hs ?_
    intro pp hpp
    simp at hpp

theorem StateInv_upsertPart (job : Job) (P L : String) (q : JVal) (d : String)
    (hjob : ∀ pp ∈ job.parts, PartInv pp.2) :
    ∀ pp ∈ (upsertPart job P L q d).parts, PartInv pp.2 := by
  by_cases hval : jsTrim P = "" ∨ (jsToNumber q).getD 0 ≤ 0
  · rw [upsertPart_dropped _ _ _ _ _ hval]
    exact hjob
  · rw [upsertPart_valid_shape _ _ _ _ _ hval]
    push_neg at hval
    have hq : 0 < (jsToNumber q).getD 0 := hval.2
    refine partsInv_setA job _ _ hjob ?_
    refine PartInv_asgInit _ _ ?_
    have hbase : PartInv (descTweak (basePart job (jsTrim P)) d) :=
      PartInv_descTweak _ _ (PartInv_basePart job _ hjob)
    exact PartInv_locUpd _ _ _ hq hbase

theorem StateInv_applyOp (s : AppState) (op : LOp) (hs : StateInv s) :
    StateInv (applyOp s op) := by
  cases op with
  | ensure j f => exact StateInv_ensure s j f hs
  | importRow jid pn loc q d =>
    show StateInv (modifyJob (ensureJobState s jid jid) jid
      (fun job => upsertPart job pn loc q d))
    have hs1 : StateInv (ensureJobState s jid jid) := StateInv_ensure s jid jid hs
    unfold modifyJob
    cases hl : lookupA jid (ensureJobState s jid jid).jobs with
    | none => exact hs1
    | some job =>
      refine StateInv_updJob _ jid _ _ hs1 ?_
      exact StateInv_upsertPart job pn loc q d (jobParts_inv _ jid job hs1 hl)
  | adjust jid pn loc delta =>
    show StateInv (adjustAssignment s jid pn loc delta)
    cases hj : lookupA jid s.jobs with
    | none =>
      have he : adjustAssignment s jid pn loc delta = s := by
        simp only [adjustAssignment, hj]
      rw [he]
      exact hs
    | some job =>
      cases hp : lookupA pn job.parts with
      | none =>
        have he : adjustAssignment s jid pn loc delta = s := by
          simp only [adjustAssignment, hj, hp]
        rw [he]
        exact hs
      | some part =>
        have hjob := jobParts_inv s jid job hs hj
        have hpart := hjob (pn, part) (lookupA_mem hp)
        rw [adjust_shape s jid pn loc delta job part hj hp]
        refine StateInv_updJob s jid _ s.selectedJobId hs ?_
        refine partsInv_setA job pn _ hjob ?_
        refine PartInv_setAsg part loc _ hpart (le_max_left _ _) ?_
        exact max_le (getD_nonneg_of_pos hpart.2.1 loc) (min_le_left _ _)
  | assign jid pn loc v =>
    show StateInv (setAssignment s jid pn loc v)
    cases hj : lookupA jid s.jobs with
    | none =>
      have he : setAssignment s jid pn loc v = s := by
        simp only [setAssignment, hj]
      rw [he]
      exact hs
    | some job =>
      cases hp : lookupA pn job.parts with
      | none =>
        have he : setAssignment s jid pn loc v = s := by
          simp only [setAssignment, hj, hp]
        rw [he]
        exact hs
      | some part =>
        have hjob := jobParts_inv s jid job hs hj
        have hpart := hjob (pn, part) (lookupA_mem hp)
        rw [set_shape s jid pn loc v job part hj hp]
        refine StateInv_updJob s jid _ s.selectedJobId hs ?_
        refine partsInv_setA job pn _ hjob ?_
        refine PartInv_setAsg part loc _ hpart (le_max_left _ _) ?_
        exact max_le (getD_nonneg_of_pos hpart.2.1 loc) (min_le_left _ _)
  | fillAll jid pn =>
    show StateInv (markFullyAssigned s jid pn)
    cases hj : lookupA jid s.jobs with
    | none =>
      have he : markFullyAssigned s jid pn = s := by
        simp only [markFullyAssigned, hj]
      rw [he]
      exact hs
    | some job =>
      cases hp : lookupA pn job.parts with
      | none =>
        have he : markFullyAssigned s jid pn = s := by
          simp only [markFullyAssigned, hj, hp]
        rw [he]
        exact hs
      | some part =>
        have hjob := jobParts_inv s jid job hs hj
        have hpart := hjob (pn, part) (lookupA_mem hp)
        have he : markFullyAssigned s jid pn
            = AppState.mk
                (setA jid
                  (Job.mk job.id job.filename job.pendingRaw
                    (setA pn
                      (Part.mk part.description part.locations
                        (part.locations.foldl (fun asg lr => setA lr.1 lr.2 asg) part.assigned))
                      job.parts))
                  s.jobs)
                s.selectedJobId := by
          simp only [markFullyAssigned, hj, hp]
        rw [he]
        refine StateInv_updJob s jid _ s.selectedJobId hs ?_
        exact partsInv_setA job pn _ hjob (PartInv_fillAll part hpart)
  | fillOne jid pn loc =>
    show StateInv (fillOneLocation s jid pn loc)
    cases hj : lookupA jid s.jobs with
    | none =>
      have he : fillOneLocation s jid pn loc = s := by
        simp only [fillOneLocation, hj]
      rw [he]
      exact hs
    | some job =>
      cases hp : lookupA pn job.parts with
      | none =>
        have he : fillOneLocation s jid pn loc = s := by
          simp only [fillOneLocation, hj, hp]
        rw [he]
        exact hs
      | some part =>
        have hjob := jobParts_inv s jid job hs hj
        have hpart := hjob (pn, part) (lookupA_mem hp)
        by_cases hz : getD loc part.locations 0 = 0
        · have he : fillOneLocation s jid pn loc = s := by
            simp only [fillOneLocation, hj, hp]
            rw [if_pos hz]
          rw [he]
          exact hs
        · have he : fillOneLocation s jid pn loc
              = AppState.mk
                  (setA jid
                    (Job.mk job.id job.filename job.pendingRaw
                      (setA pn
                        (Part.mk part.description part.locations
                          (setA loc (getD loc part.locations 0) part.assigned))
                        job.parts))
                    s.jobs)
                  s.selectedJobId := by
            simp only [fillOneLocation, hj, hp]
            rw [if_neg hz]
          rw [he]
          refine StateInv_updJob s jid _ s.selectedJobId hs ?_
          refine partsInv_setA job pn _ hjob ?_
          exact PartInv_setAsg part loc _ hpart (getD_nonneg_of_pos hpart.2.1 loc) le_rfl

theorem StateInv_applyOps (ops : List LOp) : StateInv (applyOps initialState ops) := by
  have key : ∀ (l : List LOp) (s : AppState), StateInv s → StateInv (l.foldl applyOp s) := by
    intro l
    induction l with
    | nil => intro s hs; exact hs
    | cons op tl ih =>
      intro s hs
      rw [List.foldl_cons]
      exact ih _ (StateInv_applyOp s op hs)
  refine key ops initialState ?_
  intro jj hjj
  simp [initialState] at hjj

/-- Claim C1 (amended): in the local variant, every state reachable from the
empty state by the public operations (job creation, per-row merge import,
adjust, set, fillAll, fillOne) satisfies the cell invariant: every stored
cell has `requiredQty > 0` and `0 ≤ assignedQty ≤ requiredQty`.  (In the
remote variant the invariant fails under merge with `replaceQtyOnMerge` —
see the counterexample.) -/
theorem C1_local_ledger_invariant (ops : List LOp) :
    ∀ jj ∈ (applyOps initialState ops).jobs, ∀ pp ∈ jj.2.parts,
      ∀ lr ∈ pp.2.locations,
        0 < lr.2 ∧ 0 ≤ getD lr.1 pp.2.assigned 0 ∧ getD lr.1 pp.2.assigned 0 ≤ lr.2 := by
  intro jj hjj pp hpp lr hlr
  obtain ⟨hnd, hpos, hasg⟩ := StateInv_applyOps ops jj hjj pp hpp
  refine ⟨hpos lr hlr, ?_, ?_⟩
  · rw [getD]
    cases ha : lookupA lr.1 pp.2.assigned with
    | none => simp
    | some a => simpa using (hasg (lr.1, a) (lookupA_mem ha)).1
  · rw [getD]
    cases ha : lookupA lr.1 pp.2.assigned with
    | none => simpa using (hpos lr hlr).le
    | some a =>
      have h2 := (hasg (lr.1, a) (lookupA_mem ha)).2
      have hlk : lookupA lr.1 pp.2.locations = some lr.2 :=
        lookupA_eq_of_mem_nodup hnd (by rw [Prod.mk.eta]; exact hlr)
      rw [getD, hlk] at h2
      simpa using h2

/-- Witness for C1 at a concrete operation sequence: after creating job `J`
and importing 2 of `P` at `A`, the single cell satisfies the invariant. -/
theorem C1_local_ledger_invariant_witness :
    0 < (("A", (2 : ℚ)) : String × ℚ).2 ∧
    0 ≤ getD (("A", (2 : ℚ)) : String × ℚ).1 (("P", c1Part) : String × Part).2.assigned 0 ∧
    getD (("A", (2 : ℚ)) : String × ℚ).1 (("P", c1Part) : String × Part).2.assigned 0
      ≤ (("A", (2 : ℚ)) : String × ℚ).2 := by
  have ht1 : jsTrim "P" = "P" := by decide
  have ht2 : jsTrim "A" = "A" := by decide
  have hstate : applyOps initialState c1Ops = AppState.mk [("J", c1Job)] none := by
    norm_num [applyOps, applyOp, c1Ops, c1Job, c1Part, initialState, ensureJobState,
      modifyJob, upsertPart, basePart, descTweak, asgInit, lookupA, setA, getD,
      jsOrS, jsToNumber, ht1, ht2]
    decide
  have hjj : ("J", c1Job) ∈ (applyOps initialState c1Ops).jobs := by
    rw [hstate]
    exact List.mem_singleton.2 rfl
  have hpp : ("P", c1Part) ∈ (("J", c1Job) : String × Job).2.parts := by
    simp [c1Job]
  have hlr : (("A", (2 : ℚ)) : String × ℚ) ∈ (("P", c1Part) : String × Part).2.locations := by
    simp [c1Part]
  exact C1_local_ledger_invariant c1Ops ("J", c1Job) hjj ("P", c1Part) hpp ("A", 2) hlr

/-- Counterexample to C1 as stated across both variants: in the remote
variant, a merge import of 2 of `P` at `A`, an assignment of 2 (allowed:
2 ≤ 2), then a merge import of 1 of `P` at `A` with `replaceQtyOnMerge` set
reaches a cell with `qty_assigned = 2 > qty_required = 1`. -/
theorem C1_invariant_counterexample :
    lookupA ("j", "p", "a") remDb3.cells
      = some { location := "A", qtyRequired := 1, qtyAssigned := 2 } ∧
    ¬((2 : ℚ) ≤ 1) := by
  have hnp : normalizeCode "P" = "p" := by decide
  have hna : normalizeCode "A" = "a" := by decide
  have h1 : remDb1 = RemoteDB.mk [(("j", "p"), ⟨"P", ""⟩)]
      [(("j", "p", "a"), ⟨"A", 2, 0⟩)] := by
    norm_num [remDb1, executeImport, processItem, partsUpsert, locationsUpsert, emptyDB,
      lookupA, setA, remItemPA2, hnp, hna]
  have h2 : remDb2 = RemoteDB.mk [(("j", "p"), ⟨"P", ""⟩)]
      [(("j", "p", "a"), ⟨"A", 2, 2⟩)] := by
    rw [remDb2, h1]
    norm_num [updateAssigned, lookupA, setA]
  have h3 : remDb3 = RemoteDB.mk [(("j", "p"), ⟨"P", ""⟩)]
      [(("j", "p", "a"), ⟨"A", 1, 2⟩)] := by
    rw [remDb3, h2]
    norm_num [executeImport, processItem, partsUpsert, locationsUpsert, lookupA, setA,
      remItemPA1, hnp, hna]
  rw [h3]
  refine ⟨by simp [lookupA], by norm_num⟩

end PartsTracker
